import Mathlib

/-!
Shallow embedding of the in-memory content store of the Blog API
(`src/main.py`).  The Python module keeps four pieces of global state:
`posts_db` and `comments_db` (insertion-ordered dicts), `tags_db` (a set of
lowercase tag strings) and two integer counters.  Dicts are modelled as
insertion-ordered association lists, the tag set as a duplicate-free list,
timestamps (`datetime.utcnow()`) as natural numbers supplied by the caller,
and raised `HTTPException`s as an `Err` value returned next to the
(unchanged or updated) store.  Python's stable `list.sort(key=..,
reverse=True)` is modelled by a stable insertion sort.
-/

namespace BlogApi

/-- Errors surfaced by the store: `notFound` models HTTP 404, `validation`
models the pydantic `ValueError` / HTTP 400-422 family. -/
inductive Err where
  | notFound
  | validation
deriving DecidableEq, Repr

/-- A post record, the fields of the `Post` pydantic model / `post_data`
dict in `create_post`. -/
structure Post where
  id : Nat
  author : String
  image_url : Option String
  views : Nat
  created_at : Nat
  updated_at : Nat
  title : String
  content : String
  tags : List String
  published : Bool
deriving DecidableEq, Repr

/-- A comment record, the fields of the `Comment` model / `comment_data`
dict in `create_comment`. -/
structure Comment where
  id : Nat
  post_id : Nat
  created_at : Nat
  content : String
  author : String
deriving DecidableEq, Repr

/-- The body of a `PUT /posts/id` request: `PostUpdate` with all fields
optional; `none` models a field absent from the request
(`dict(exclude_unset=True)`). -/
structure PostUpdate where
  title : Option String := none
  content : Option String := none
  tags : Option (List String) := none
  published : Option Bool := none
deriving DecidableEq, Repr

/-- The `PaginatedPosts` response model. -/
structure PaginatedPosts where
  items : List Post
  total : Nat
  page : Nat
  page_size : Nat
  total_pages : Nat
deriving DecidableEq, Repr

/-- The `PostStats` response model; `popular_tags` holds (tag, count)
pairs, the dicts built in `get_stats`. -/
structure PostStats where
  total_posts : Nat
  published_posts : Nat
  draft_posts : Nat
  total_views : Nat
  total_comments : Nat
  popular_tags : List (String × Nat)
deriving DecidableEq, Repr

/-- The module-level global state: `posts_db`, `comments_db`, `tags_db`,
`post_counter`, `comment_counter`. -/
structure Store where
  posts_db : List (Nat × Post)
  comments_db : List (Nat × Comment)
  tags_db : List String
  post_counter : Nat
  comment_counter : Nat
deriving DecidableEq, Repr

/-- The initial (module load time) state: empty dicts, empty set, zero
counters. -/
def emptyStore : Store :=
  { posts_db := [], comments_db := [], tags_db := [],
    post_counter := 0, comment_counter := 0 }

/-- Dict lookup `db.get(k)`: value of the first pair with the given key. -/
def getVal : List (Nat × α) → Nat → Option α
  | [], _ => none
  | kv :: rest, k => if kv.1 = k then some kv.2 else getVal rest k

/-- Dict in-place value update `db[k] = v` for an existing key: replaces
the value at every pair carrying the key, keeping its position. -/
def setVal : List (Nat × α) → Nat → α → List (Nat × α)
  | [], _, _ => []
  | kv :: rest, k, v =>
    if kv.1 = k then (k, v) :: setVal rest k v else kv :: setVal rest k v

/-- Dict deletion `del db[k]`: removes the pairs carrying the key, the
rest keep their relative order. -/
def eraseKey : List (Nat × α) → Nat → List (Nat × α)
  | [], _ => []
  | kv :: rest, k =>
    if kv.1 = k then eraseKey rest k else kv :: eraseKey rest k

/-- Key membership `k in db`. -/
def hasKey (db : List (Nat × α)) (k : Nat) : Bool :=
  (db.map Prod.fst).contains k

/-- Set insertion `tags_db.add(t)`: a no-op when the element is present. -/
def insertSet (db : List String) (t : String) : List String :=
  if t ∈ db then db else db ++ [t]

/-- Drop leading whitespace characters. -/
def dropWs : List Char → List Char
  | [] => []
  | c :: cs => if c.isWhitespace then dropWs cs else c :: cs

/-- Python's `str.lower()` (ASCII case folding, character by character). -/
def pyLower (s : String) : String :=
  ⟨s.data.map Char.toLower⟩

/-- Python's `str.strip()` with no arguments: remove leading and trailing
whitespace. -/
def pyStrip (s : String) : String :=
  ⟨(dropWs (dropWs s.data).reverse).reverse⟩

/-- The tag registration loop `for tag in tags: tags_db.add(tag.lower())`
shared by `create_post` and `update_post`. -/
def registerTags (db : List String) (ts : List String) : List String :=
  ts.foldl (fun d t => insertSet d (pyLower t)) db

/-- Insert one element into a list sorted by descending key, after every
earlier element of greater-or-equal key (stability). -/
def insertDesc (key : α → Nat) (x : α) : List α → List α
  | [] => [x]
  | y :: ys => if key y ≤ key x then x :: y :: ys else y :: insertDesc key x ys

/-- Stable sort by descending key, the model of Python's stable
`list.sort(key=.., reverse=True)`. -/
def sortDesc (key : α → Nat) (l : List α) : List α :=
  l.foldr (insertDesc key) []

/-- Character-list test: the first list occurs at the start of the second. -/
def charsStart : List Char → List Char → Bool
  | [], _ => true
  | _ :: _, [] => false
  | a :: as, b :: bs => a == b && charsStart as bs

/-- Character-list test: the first list occurs contiguously somewhere in
the second. -/
def charsSub (needle : List Char) : List Char → Bool
  | [] => charsStart needle []
  | b :: bs => charsStart needle (b :: bs) || charsSub needle bs

/-- Python's substring test `needle in hay` on strings. -/
def strContains (hay needle : String) : Bool :=
  charsSub needle.data hay.data

/-- Python's `str.startswith(pre)`. -/
def pyStarts (s pre : String) : Bool :=
  charsStart pre.data s.data

/-- Insert one string into a lexicographically ascending list. -/
def insertAsc (x : String) : List String → List String
  | [] => [x]
  | y :: ys => if (compare x y).isLE then x :: y :: ys else y :: insertAsc x ys

/-- Ascending string sort, the model of `sorted(list(tags_db))`. -/
def sortAsc (l : List String) : List String :=
  l.foldr insertAsc []

/-- The helper `get_post_or_404`: a bare dict lookup; the 404 branch is
the `none` result, handled by each caller. -/
def get_post_or_404 (s : Store) (post_id : Nat) : Option Post :=
  getVal s.posts_db post_id

/-- In-place `posts_db[post_id]["views"] += 1` on the pair carrying the
key, every other pair untouched. -/
def bumpViews : List (Nat × Post) → Nat → List (Nat × Post)
  | [], _ => []
  | kv :: rest, k =>
    if kv.1 = k then (kv.1, { kv.2 with views := kv.2.views + 1 }) :: bumpViews rest k
    else kv :: bumpViews rest k

/-- The helper `increment_views`: bumps the view counter of the stored
post when the id is present, otherwise does nothing. -/
def increment_views (s : Store) (post_id : Nat) : Store :=
  { s with posts_db := bumpViews s.posts_db post_id }

/-- The helper `calculate_pagination`: `(total + page_size - 1) //
page_size` (the `page` argument is ignored by the source too). -/
def calculate_pagination (total page page_size : Nat) : Nat :=
  (total + page_size - 1) / page_size

/-- The pydantic validator `title_must_not_be_empty` on `PostBase`:
rejects a title that is empty after stripping whitespace. -/
def title_must_not_be_empty (v : String) : Except Err String :=
  if pyStrip v = "" then .error .validation else .ok v

/-- Route `POST /posts` (`create_post`): the request-body validator runs
before the handler, so a blank title leaves the state untouched;
otherwise the post counter is advanced, every tag is registered
lowercased, and the fully populated post is stored and returned. -/
def create_post (s : Store) (title content : String) (tags : List String)
    (published : Bool) (author : String) (now : Nat) : Except Err Post × Store :=
  match title_must_not_be_empty title with
  | .error e => (.error e, s)
  | .ok _ =>
    let pc := s.post_counter + 1
    let tdb := registerTags s.tags_db tags
    let p : Post :=
      { id := pc, author := author, image_url := none, views := 0,
        created_at := now, updated_at := now, title := title,
        content := content, tags := tags, published := published }
    (.ok p, { s with post_counter := pc, tags_db := tdb,
                     posts_db := s.posts_db ++ [(pc, p)] })

/-- Route `POST /posts/id/image` (`upload_post_image`): 404 on unknown
post, 400 on a non-image content type; otherwise the stored reference is
the collaborator-produced URL and `updated_at` is refreshed.  The byte
stream itself lives with the file-storage collaborator and is outside the
store. -/
def upload_post_image (s : Store) (post_id : Nat) (content_type url : String)
    (now : Nat) : Except Err String × Store :=
  match get_post_or_404 s post_id with
  | none => (.error .notFound, s)
  | some p =>
    if !pyStarts content_type "image/" then (.error .validation, s)
    else
      let p' := { p with image_url := some url, updated_at := now }
      (.ok url, { s with posts_db := setVal s.posts_db post_id p' })

/-- The filter chain of `get_posts`: `if tag: ...`, `if published is not
None: ...`, `if search: ...` — note that the Python truthiness tests on
`tag` and `search` skip the filter for an empty string as well as for an
absent parameter. -/
def applyFilters (posts : List Post) (tag : Option String)
    (published : Option Bool) (search : Option String) : List Post :=
  let f1 := match tag with
    | none => posts
    | some t =>
      if t = "" then posts
      else posts.filter (fun p => (p.tags.map pyLower).contains (pyLower t))
  let f2 := match published with
    | none => f1
    | some b => f1.filter (fun p => p.published == b)
  match search with
  | none => f2
  | some q =>
    if q = "" then f2
    else f2.filter (fun p =>
      strContains (pyLower p.title) (pyLower q) || strContains (pyLower p.content) (pyLower q))

/-- The filtered list of `get_posts` after its `sort(key=created_at,
reverse=True)` step. -/
def filteredSorted (s : Store) (tag : Option String) (published : Option Bool)
    (search : Option String) : List Post :=
  sortDesc (fun p => p.created_at) (applyFilters (s.posts_db.map Prod.snd) tag published search)

/-- Route `GET /posts` (`get_posts`): filter, sort newest-first, then
slice `[(page-1)*page_size : page*page_size]`. -/
def get_posts (s : Store) (page page_size : Nat) (tag : Option String)
    (published : Option Bool) (search : Option String) : PaginatedPosts :=
  let sorted := filteredSorted s tag published search
  let total := sorted.length
  let total_pages := calculate_pagination total page page_size
  let start := (page - 1) * page_size
  { items := (sorted.drop start).take page_size,
    total := total, page := page, page_size := page_size,
    total_pages := total_pages }

/-- Route `GET /posts/id` (`get_post`): 404 on unknown id; otherwise the
view counter is bumped and the post is returned — the handler returns the
same dict object `increment_views` just mutated, so the response already
carries the incremented counter. -/
def get_post (s : Store) (post_id : Nat) : Except Err Post × Store :=
  match get_post_or_404 s post_id with
  | none => (.error .notFound, s)
  | some p => (.ok { p with views := p.views + 1 }, increment_views s post_id)

/-- Route `PUT /posts/id` (`update_post`): 404 on unknown id; otherwise
the supplied fields (those set in the request) overwrite the stored ones,
tags are additionally registered lowercased when supplied, and
`updated_at` is refreshed unconditionally.  No validator runs on
`PostUpdate`. -/
def update_post (s : Store) (post_id : Nat) (u : PostUpdate) (now : Nat) :
    Except Err Post × Store :=
  match get_post_or_404 s post_id with
  | none => (.error .notFound, s)
  | some p =>
    let tdb := match u.tags with
      | some ts => registerTags s.tags_db ts
      | none => s.tags_db
    let p' : Post :=
      { p with
        title := u.title.getD p.title,
        content := u.content.getD p.content,
        tags := u.tags.getD p.tags,
        published := u.published.getD p.published,
        updated_at := now }
    (.ok p', { s with tags_db := tdb, posts_db := setVal s.posts_db post_id p' })

/-- Route `DELETE /posts/id` (`delete_post`): 404 on unknown id;
otherwise every comment whose `post_id` matches is removed, then the post
itself.  The physical image file removal is a side effect at the
file-storage collaborator with no trace in the store. -/
def delete_post (s : Store) (post_id : Nat) : Except Err Unit × Store :=
  match get_post_or_404 s post_id with
  | none => (.error .notFound, s)
  | some _ =>
    let comments' := s.comments_db.filter (fun kv => !(kv.2.post_id == post_id))
    (.ok (), { s with comments_db := comments', posts_db := eraseKey s.posts_db post_id })

/-- Route `POST /posts/id/comments` (`create_comment`): 404 on unknown
post — raised before the comment counter moves; otherwise the counter is
advanced and the comment stored. -/
def create_comment (s : Store) (post_id : Nat) (content author : String)
    (now : Nat) : Except Err Comment × Store :=
  match get_post_or_404 s post_id with
  | none => (.error .notFound, s)
  | some _ =>
    let cc := s.comment_counter + 1
    let c : Comment :=
      { id := cc, post_id := post_id, created_at := now,
        content := content, author := author }
    (.ok c, { s with comment_counter := cc, comments_db := s.comments_db ++ [(cc, c)] })

/-- Route `GET /posts/id/comments` (`get_comments`): 404 on unknown post;
otherwise the post's comments sorted by `created_at` descending. -/
def get_comments (s : Store) (post_id : Nat) : Except Err (List Comment) × Store :=
  match get_post_or_404 s post_id with
  | none => (.error .notFound, s)
  | some _ =>
    (.ok (sortDesc (fun c => c.created_at)
      ((s.comments_db.map Prod.snd).filter (fun c => c.post_id == post_id))), s)

/-- Route `DELETE /comments/id` (`delete_comment`): 404 when the id is
not a key of `comments_db`, otherwise removes the comment. -/
def delete_comment (s : Store) (comment_id : Nat) : Except Err Unit × Store :=
  if !hasKey s.comments_db comment_id then
    (.error .notFound, s)
  else
    (.ok (), { s with comments_db := eraseKey s.comments_db comment_id })

/-- Route `GET /tags` (`get_tags`): the registry sorted ascending. -/
def get_tags (s : Store) : List String :=
  sortAsc s.tags_db

/-- Route `GET /tags/name/posts` (`get_posts_by_tag`): case-insensitive
membership filter, sorted newest first, no pagination, no 404. -/
def get_posts_by_tag (s : Store) (tag_name : String) : List Post :=
  sortDesc (fun p => p.created_at)
    ((s.posts_db.map Prod.snd).filter
      (fun p => (p.tags.map pyLower).contains (pyLower tag_name)))

/-- One step of the `tag_counts[tag] = tag_counts.get(tag, 0) + 1` dict
update: bump the first pair with this key or append a fresh one. -/
def bump : List (String × Nat) → String → List (String × Nat)
  | [], t => [(t, 1)]
  | (k, c) :: rest, t =>
    if k = t then (k, c + 1) :: rest else (k, c) :: bump rest t

/-- The `tag_counts` dict of `get_stats`, built over the concatenation of
every post's tag list in iteration order. -/
def buildCounts (tags : List String) : List (String × Nat) :=
  tags.foldl bump []

/-- Route `GET /stats` (`get_stats`): partition counts, total views,
total comments, and the five most frequent tags (raw, non-normalized tag
occurrences across posts, sorted by count descending — Python's stable
`sorted(..., reverse=True)`). -/
def get_stats (s : Store) : PostStats :=
  let all_posts := s.posts_db.map Prod.snd
  let published := all_posts.filter (fun p => p.published)
  let drafts := all_posts.filter (fun p => !p.published)
  let total_views := (all_posts.map Post.views).sum
  let tag_counts := buildCounts ((all_posts.map Post.tags).flatten)
  let popular_tags := (sortDesc (fun tc => tc.2) tag_counts).take 5
  { total_posts := all_posts.length, published_posts := published.length,
    draft_posts := drafts.length, total_views := total_views,
    total_comments := s.comments_db.length, popular_tags := popular_tags }

/-! Helper lemmas about the list-level building blocks. -/

theorem perm_insertDesc (key : α → Nat) (x : α) :
    ∀ l : List α, (insertDesc key x l).Perm (x :: l)
  | [] => List.Perm.refl _
  | y :: ys => by
    rw [insertDesc]
    by_cases h : key y ≤ key x
    · rw [if_pos h]
    · rw [if_neg h]
      exact ((perm_insertDesc key x ys).cons y).trans (List.Perm.swap x y ys)

theorem sortDesc_perm (key : α → Nat) :
    ∀ l : List α, (sortDesc key l).Perm l
  | [] => List.Perm.refl _
  | a :: l => by
    rw [sortDesc, List.foldr_cons]
    exact (perm_insertDesc key a _).trans ((sortDesc_perm key l).cons a)

theorem mem_insertDesc (key : α → Nat) (x : α) (l : List α) (a : α) :
    a ∈ insertDesc key x l ↔ a = x ∨ a ∈ l := by
  rw [(perm_insertDesc key x l).mem_iff, List.mem_cons]

theorem length_sortDesc (key : α → Nat) (l : List α) :
    (sortDesc key l).length = l.length :=
  (sortDesc_perm key l).length_eq

theorem pairwise_insertDesc (key : α → Nat) (x : α) :
    ∀ l : List α, l.Pairwise (fun a b => key b ≤ key a) →
      (insertDesc key x l).Pairwise (fun a b => key b ≤ key a)
  | [], _ => by simp [insertDesc]
  | y :: ys, h => by
    rw [List.pairwise_cons] at h
    rw [insertDesc]
    by_cases hxy : key y ≤ key x
    · rw [if_pos hxy]
      refine List.Pairwise.cons ?_ (List.Pairwise.cons h.1 h.2)
      intro b hb
      rcases List.mem_cons.mp hb with rfl | hb
      · exact hxy
      · exact Nat.le_trans (h.1 b hb) hxy
    · rw [if_neg hxy]
      refine List.Pairwise.cons ?_ (pairwise_insertDesc key x ys h.2)
      intro b hb
      rcases (mem_insertDesc key x ys b).mp hb with rfl | hb
      · exact Nat.le_of_lt (Nat.lt_of_not_le hxy)
      · exact h.1 b hb

theorem sortDesc_pairwise (key : α → Nat) :
    ∀ l : List α, (sortDesc key l).Pairwise (fun a b => key b ≤ key a)
  | [] => List.Pairwise.nil
  | a :: l => by
    rw [sortDesc, List.foldr_cons]
    exact pairwise_insertDesc key a _ (sortDesc_pairwise key l)

theorem mem_insertAsc (x : String) (l : List String) (a : String) :
    a ∈ insertAsc x l ↔ a = x ∨ a ∈ l := by
  induction l with
  | nil => simp [insertAsc]
  | cons y ys ih =>
    rw [insertAsc]
    by_cases h : (compare x y).isLE
    · rw [if_pos h]; simp
    · rw [if_neg h]
      simp only [List.mem_cons, ih]
      tauto

theorem mem_sortAsc (l : List String) (a : String) :
    a ∈ sortAsc l ↔ a ∈ l := by
  induction l with
  | nil => simp [sortAsc]
  | cons y ys ih =>
    rw [sortAsc, List.foldr_cons]
    rw [mem_insertAsc]
    simp only [List.mem_cons]
    rw [show (List.foldr insertAsc [] ys) = sortAsc ys from rfl, ih]

theorem getVal_some_mem {α : Type} {db : List (Nat × α)} {k : Nat} {v : α}
    (h : getVal db k = some v) : (k, v) ∈ db := by
  induction db with
  | nil => simp [getVal] at h
  | cons kv db ih =>
    rw [getVal] at h
    by_cases hk : kv.1 = k
    · rw [if_pos hk] at h
      simp only [Option.some_inj] at h
      have hkv : (k, v) = kv := by
        obtain ⟨k0, v0⟩ := kv
        simp only at hk h
        rw [← hk, ← h]
      rw [hkv]
      exact List.mem_cons_self _ _
    · rw [if_neg hk] at h
      exact List.mem_cons_of_mem _ (ih h)

theorem getVal_setVal_same (db : List (Nat × α)) (k : Nat) (v : α) :
    getVal (setVal db k v) k = (getVal db k).map (fun _ => v) := by
  induction db with
  | nil => rfl
  | cons kv db ih =>
    rw [setVal]
    by_cases h : kv.1 = k
    · rw [if_pos h, getVal, getVal, if_pos rfl, if_pos h]
      rfl
    · rw [if_neg h, getVal, getVal, if_neg h, if_neg h]
      exact ih

theorem getVal_setVal_ne (db : List (Nat × α)) (k k' : Nat) (v : α) (h : k' ≠ k) :
    getVal (setVal db k v) k' = getVal db k' := by
  induction db with
  | nil => rfl
  | cons kv db ih =>
    rw [setVal]
    by_cases hk : kv.1 = k
    · rw [if_pos hk, getVal, getVal,
        if_neg (show ¬((k, v).1 = k') from fun hkk => h hkk.symm),
        if_neg (show ¬(kv.1 = k') from by rw [hk]; exact fun hkk => h hkk.symm)]
      exact ih
    · rw [if_neg hk, getVal, getVal]
      by_cases hk' : kv.1 = k'
      · rw [if_pos hk', if_pos hk']
      · rw [if_neg hk', if_neg hk']
        exact ih

theorem getVal_eraseKey_same (db : List (Nat × α)) (k : Nat) :
    getVal (eraseKey db k) k = none := by
  induction db with
  | nil => rfl
  | cons kv db ih =>
    rw [eraseKey]
    by_cases h : kv.1 = k
    · rw [if_pos h]; exact ih
    · rw [if_neg h, getVal, if_neg h]; exact ih

theorem getVal_eraseKey_ne (db : List (Nat × α)) (k k' : Nat) (h : k' ≠ k) :
    getVal (eraseKey db k) k' = getVal db k' := by
  induction db with
  | nil => rfl
  | cons kv db ih =>
    rw [eraseKey]
    by_cases hk : kv.1 = k
    · rw [if_pos hk, getVal, if_neg (by rw [hk]; exact fun hkk => h hkk.symm)]
      exact ih
    · rw [if_neg hk, getVal, getVal]
      by_cases hk' : kv.1 = k'
      · rw [if_pos hk', if_pos hk']
      · rw [if_neg hk', if_neg hk']
        exact ih

theorem mem_setVal {α : Type} {db : List (Nat × α)} {k : Nat} {v : α} {kv : Nat × α}
    (h : kv ∈ setVal db k v) : kv = (k, v) ∨ kv ∈ db := by
  induction db with
  | nil => simp [setVal] at h
  | cons hd db ih =>
    rw [setVal] at h
    by_cases hk : hd.1 = k
    · rw [if_pos hk] at h
      rcases List.mem_cons.mp h with rfl | h
      · exact Or.inl rfl
      · rcases ih h with h | h
        · exact Or.inl h
        · exact Or.inr (List.mem_cons_of_mem _ h)
    · rw [if_neg hk] at h
      rcases List.mem_cons.mp h with rfl | h
      · exact Or.inr (List.mem_cons_self _ _)
      · rcases ih h with h | h
        · exact Or.inl h
        · exact Or.inr (List.mem_cons_of_mem _ h)

theorem mem_eraseKey {α : Type} {db : List (Nat × α)} {k : Nat} {kv : Nat × α}
    (h : kv ∈ eraseKey db k) : kv ∈ db := by
  induction db with
  | nil => simp [eraseKey] at h
  | cons hd db ih =>
    rw [eraseKey] at h
    by_cases hk : hd.1 = k
    · rw [if_pos hk] at h
      exact List.mem_cons_of_mem _ (ih h)
    · rw [if_neg hk] at h
      rcases List.mem_cons.mp h with rfl | h
      · exact List.mem_cons_self _ _
      · exact List.mem_cons_of_mem _ (ih h)

theorem mem_bumpViews {db : List (Nat × Post)} {k : Nat} {kv : Nat × Post}
    (h : kv ∈ bumpViews db k) :
    ∃ kv0 ∈ db, kv.2.tags = kv0.2.tags := by
  induction db with
  | nil => simp [bumpViews] at h
  | cons hd db ih =>
    rw [bumpViews] at h
    by_cases hk : hd.1 = k
    · rw [if_pos hk] at h
      rcases List.mem_cons.mp h with rfl | h
      · exact ⟨hd, List.mem_cons_self _ _, rfl⟩
      · obtain ⟨kv0, hm, ht⟩ := ih h
        exact ⟨kv0, List.mem_cons_of_mem _ hm, ht⟩
    · rw [if_neg hk] at h
      rcases List.mem_cons.mp h with rfl | h
      · exact ⟨kv, List.mem_cons_self _ _, rfl⟩
      · obtain ⟨kv0, hm, ht⟩ := ih h
        exact ⟨kv0, List.mem_cons_of_mem _ hm, ht⟩

theorem getVal_bumpViews_same (db : List (Nat × Post)) (k : Nat) :
    getVal (bumpViews db k) k =
      (getVal db k).map (fun p => { p with views := p.views + 1 }) := by
  induction db with
  | nil => rfl
  | cons kv db ih =>
    rw [bumpViews]
    by_cases h : kv.1 = k
    · rw [if_pos h, getVal, getVal, if_pos h, if_pos h]
      rfl
    · rw [if_neg h, getVal, getVal, if_neg h, if_neg h]
      exact ih

theorem getVal_bumpViews_ne (db : List (Nat × Post)) (k k' : Nat) (h : k' ≠ k) :
    getVal (bumpViews db k) k' = getVal db k' := by
  induction db with
  | nil => rfl
  | cons kv db ih =>
    rw [bumpViews]
    by_cases hk : kv.1 = k
    · rw [if_pos hk, getVal, getVal, if_neg (by rw [hk]; exact fun hkk => h hkk.symm),
        if_neg (by rw [hk]; exact fun hkk => h hkk.symm)]
      exact ih
    · rw [if_neg hk, getVal, getVal]
      by_cases hk' : kv.1 = k'
      · rw [if_pos hk', if_pos hk']
      · rw [if_neg hk', if_neg hk']
        exact ih

theorem hasKey_eq_false_iff (db : List (Nat × α)) (k : Nat) :
    hasKey db k = false ↔ getVal db k = none := by
  induction db with
  | nil => simp [hasKey, getVal]
  | cons kv db ih =>
    rw [hasKey] at ih ⊢
    rw [List.map_cons, List.contains_cons]
    by_cases h : kv.1 = k
    · simp [getVal, h]
    · simp only [getVal, if_neg h]
      rw [show (k == kv.1) = false from by simp only [beq_eq_false_iff_ne]; exact fun hkk => h hkk.symm]
      simpa using ih

theorem subset_insertSet (db : List String) (t : String) : db ⊆ insertSet db t := by
  rw [insertSet]
  by_cases h : t ∈ db
  · rw [if_pos h]
    exact List.Subset.refl _
  · rw [if_neg h]
    exact List.subset_append_left _ _

theorem mem_insertSet_self (db : List String) (t : String) : t ∈ insertSet db t := by
  rw [insertSet]
  by_cases h : t ∈ db
  · rwa [if_pos h]
  · rw [if_neg h]
    exact List.mem_append_right _ (List.mem_singleton.mpr rfl)

theorem subset_registerTags (ts : List String) :
    ∀ db : List String, db ⊆ registerTags db ts := by
  induction ts with
  | nil => intro db; exact List.Subset.refl _
  | cons t ts ih =>
    intro db
    rw [registerTags, List.foldl_cons]
    exact (subset_insertSet db (pyLower t)).trans (ih (insertSet db (pyLower t)))

theorem mem_registerTags {t : String} (ts : List String) (ht : t ∈ ts) :
    ∀ db : List String, pyLower t ∈ registerTags db ts := by
  induction ts with
  | nil => cases ht
  | cons u ts ih =>
    intro db
    rw [registerTags, List.foldl_cons]
    rcases List.mem_cons.mp ht with rfl | ht
    · exact subset_registerTags ts _ (mem_insertSet_self db (pyLower t))
    · exact ih ht _

theorem length_filter_partition (p : α → Bool) (l : List α) :
    (l.filter p).length + (l.filter (fun a => !p a)).length = l.length := by
  induction l with
  | nil => rfl
  | cons a l ih =>
    by_cases h : p a <;> simp [List.filter_cons, h] <;> omega

theorem le_ceil_mul (a b : Nat) (hb : 1 ≤ b) : a ≤ ((a + b - 1) / b) * b := by
  by_contra hcon
  push_neg at hcon
  have hq : ((a + b - 1) / b + 1) * b = ((a + b - 1) / b) * b + b :=
    Nat.succ_mul _ _
  have hle : ((a + b - 1) / b + 1) * b ≤ a + b - 1 := by omega
  have h2 := (Nat.le_div_iff_mul_le (show 0 < b by omega)).mpr hle
  omega

theorem flatten_chunks_take (S : Nat) (l : List α) :
    ∀ k, ((List.range k).map (fun i => (l.drop (i * S)).take S)).flatten = l.take (k * S)
  | 0 => by simp
  | k + 1 => by
    rw [List.range_succ, List.map_append, List.flatten_append, flatten_chunks_take S l k]
    simp only [List.map_cons, List.map_nil, List.flatten_cons, List.flatten_nil,
      List.append_nil]
    rw [Nat.succ_mul, List.take_add]

theorem flatten_chunks (S : Nat) (hS : 1 ≤ S) (l : List α) :
    ((List.range ((l.length + S - 1) / S)).map
      (fun i => (l.drop (i * S)).take S)).flatten = l := by
  rw [flatten_chunks_take]
  exact List.take_of_length_le (le_ceil_mul l.length S hS)

/-! Claim C1: pagination of `list_posts`. -/

/-- The pagination contract of `get_posts` at one call site: `total` is
the filtered count before slicing, `total_pages` is the ceiling of
`total / S`, the items of page `p` are positions `[(p-1)*S, p*S)` of the
filtered sorted sequence, pages `1..total_pages` concatenate to exactly
that sequence, and any later page is empty. -/
def C1Prop (s : Store) (page S : Nat) (tag : Option String)
    (pub : Option Bool) (search : Option String) : Prop :=
  (get_posts s page S tag pub search).total
      = (applyFilters (s.posts_db.map Prod.snd) tag pub search).length ∧
  (get_posts s page S tag pub search).total_pages
      = ((applyFilters (s.posts_db.map Prod.snd) tag pub search).length + S - 1) / S ∧
  (get_posts s page S tag pub search).items
      = ((filteredSorted s tag pub search).drop ((page - 1) * S)).take S ∧
  ((List.range ((get_posts s page S tag pub search).total_pages)).map
      (fun i => (get_posts s (i + 1) S tag pub search).items)).flatten
      = filteredSorted s tag pub search ∧
  ((get_posts s page S tag pub search).total_pages < page →
      (get_posts s page S tag pub search).items = [])

/-- C1: for every store state and every `list_posts` call with filters and
1-based page of size `S ≥ 1`, the returned `total` counts the posts
passing the filters (before slicing), `total_pages = ceil(total/S)`,
page `p` holds exactly positions `[(p-1)*S, p*S)` of the filtered sorted
sequence, the concatenation of pages `1..total_pages` is the whole
filtered sequence with no duplicates or omissions, and a page past
`total_pages` yields an empty item list while `total` and `total_pages`
still report the real counts, with no error. -/
theorem c1_pagination (s : Store) (page S : Nat) (tag : Option String)
    (pub : Option Bool) (search : Option String) (hp : 1 ≤ page) (hS : 1 ≤ S) :
    C1Prop s page S tag pub search := by
  have htp : (get_posts s page S tag pub search).total_pages
      = ((filteredSorted s tag pub search).length + S - 1) / S := by
    simp [get_posts, calculate_pagination]
  have hlen : (filteredSorted s tag pub search).length
      = (applyFilters (s.posts_db.map Prod.snd) tag pub search).length :=
    length_sortDesc _ _
  refine ⟨?_, ?_, rfl, ?_, ?_⟩
  · simpa [get_posts] using hlen
  · rw [htp, hlen]
  · have hitems : ∀ i, (get_posts s (i + 1) S tag pub search).items
        = ((filteredSorted s tag pub search).drop (i * S)).take S := by
      intro i
      simp [get_posts]
    rw [htp]
    simp only [hitems]
    exact flatten_chunks S hS _
  · intro hgt
    rw [htp] at hgt
    have h2 := le_ceil_mul (filteredSorted s tag pub search).length S hS
    have h3 : (filteredSorted s tag pub search).length ≤ (page - 1) * S :=
      h2.trans (Nat.mul_le_mul_right S (by omega))
    show ((filteredSorted s tag pub search).drop ((page - 1) * S)).take S = []
    rw [List.drop_eq_nil_of_le h3, List.take_nil]

/-- A store holding three posts, used to instantiate claim theorems. -/
def threePostStore : Store :=
  (create_post
    (create_post
      (create_post emptyStore "Hello" "first body" ["Go", "go"] false "author1" 0).2
      "World" "second body" ["api"] true "author1" 1).2
    "Third" "third body" [] true "author2" 2).2

theorem c1_pagination_witness : 1 ≤ 2 ∧ C1Prop threePostStore 2 2 none none none :=
  ⟨by decide, c1_pagination threePostStore 2 2 none none none (by decide) (by decide)⟩

/-! Claim C2: `get_post` view-counter side effect. -/

/-- N successive `get_post` calls on the same id, threading the store. -/
def iterGetPost (s : Store) (pid : Nat) : Nat → Store
  | 0 => s
  | n + 1 => (get_post (iterGetPost s pid n) pid).2

/-- Effect of one successful `get_post` on a store holding `p` at `pid`:
the call succeeds returning the post with its view counter bumped, the
stored post is the same record with views+1 and nothing else changed, and
no other post, comment, tag or counter moves. -/
def C2Success (s : Store) (pid : Nat) (p : Post) : Prop :=
  (get_post s pid).1 = .ok { p with views := p.views + 1 } ∧
  getVal (get_post s pid).2.posts_db pid = some { p with views := p.views + 1 } ∧
  (∀ k, k ≠ pid → getVal (get_post s pid).2.posts_db k = getVal s.posts_db k) ∧
  (get_post s pid).2.comments_db = s.comments_db ∧
  (get_post s pid).2.tags_db = s.tags_db ∧
  (get_post s pid).2.post_counter = s.post_counter ∧
  (get_post s pid).2.comment_counter = s.comment_counter

/-- Effect of N successful `get_post` calls: views grow by exactly N and
nothing else changes. -/
def C2Iter (s : Store) (pid : Nat) (p : Post) (N : Nat) : Prop :=
  getVal (iterGetPost s pid N).posts_db pid = some { p with views := p.views + N } ∧
  (∀ k, k ≠ pid → getVal (iterGetPost s pid N).posts_db k = getVal s.posts_db k) ∧
  (iterGetPost s pid N).comments_db = s.comments_db ∧
  (iterGetPost s pid N).tags_db = s.tags_db ∧
  (iterGetPost s pid N).post_counter = s.post_counter ∧
  (iterGetPost s pid N).comment_counter = s.comment_counter

/-- C2: `get_post` on an unknown id fails with `NotFoundError` and leaves
the store alone; on an existing id it succeeds and bumps exactly that
post's view counter by 1, so N calls bump it by exactly N and change
nothing else. -/
theorem c2_views (s : Store) (pid : Nat) :
    (getVal s.posts_db pid = none → get_post s pid = (.error .notFound, s)) ∧
    (∀ p, getVal s.posts_db pid = some p → C2Success s pid p) ∧
    (∀ p N, getVal s.posts_db pid = some p → C2Iter s pid p N) := by
  have hsucc : ∀ s' : Store, ∀ p, getVal s'.posts_db pid = some p → C2Success s' pid p := by
    intro s' p hp
    have hmatch : get_post s' pid
        = (.ok { p with views := p.views + 1 }, increment_views s' pid) := by
      simp [get_post, get_post_or_404, hp]
    rw [C2Success, hmatch]
    refine ⟨rfl, ?_, ?_, rfl, rfl, rfl, rfl⟩
    · simp [increment_views, getVal_bumpViews_same, hp]
    · intro k hk
      exact getVal_bumpViews_ne _ _ _ hk
  refine ⟨?_, hsucc s, ?_⟩
  · intro h
    simp [get_post, get_post_or_404, h]
  · intro p N hp
    induction N with
    | zero => exact ⟨hp, fun k _ => rfl, rfl, rfl, rfl, rfl⟩
    | succ n ih =>
      obtain ⟨h1, h2, h3, h4, h5, h6⟩ := ih
      obtain ⟨g1, g2, g3, g4, g5, g6, g7⟩ :=
        hsucc (iterGetPost s pid n) { p with views := p.views + n } h1
      refine ⟨?_, ?_, ?_, ?_, ?_, ?_⟩
      · rw [iterGetPost]
        exact g2
      · intro k hk
        rw [iterGetPost, g3 k hk]
        exact h2 k hk
      · rw [iterGetPost, g4, h3]
      · rw [iterGetPost, g5, h4]
      · rw [iterGetPost, g6, h5]
      · rw [iterGetPost, g7, h6]

/-- The post stored under id 1 of `threePostStore`. -/
def post1 : Post :=
  { id := 1, author := "author1", image_url := none, views := 0,
    created_at := 0, updated_at := 0, title := "Hello",
    content := "first body", tags := ["Go", "go"], published := false }

theorem c2_views_witness :
    C2Success threePostStore 1 post1 ∧ C2Iter threePostStore 1 post1 5 :=
  ⟨(c2_views threePostStore 1).2.1 post1 (by decide),
   (c2_views threePostStore 1).2.2 post1 5 (by decide)⟩

/-! Claim C3: blank-title `create_post` fails and changes nothing. -/

/-- C3: `create_post` with an empty or whitespace-only title fails with
`ValidationError` and returns the store exactly as it was — same posts
map, comments map, tag registry and counters, so no post id is consumed
and no tag of the rejected request is registered. -/
theorem c3_blank_title (s : Store) (title content : String) (tags : List String)
    (published : Bool) (author : String) (now : Nat) (h : pyStrip title = "") :
    create_post s title content tags published author now = (.error .validation, s) := by
  simp [create_post, title_must_not_be_empty, h]

theorem c3_blank_title_witness :
    pyStrip "   " = "" ∧
    create_post threePostStore "   " "body" ["t"] true "author1" 9
      = (.error .validation, threePostStore) :=
  ⟨by decide, c3_blank_title threePostStore "   " "body" ["t"] true "author1" 9 (by decide)⟩

/-! Claim C4: conjunctive filtering in `list_posts`. -/

/-- The filter predicate exactly as the claim words it: a supplied tag
must match some element of the post's tag list case-insensitively, a
supplied published flag must equal the post's flag, and a supplied search
string must occur case-insensitively in the title or the content. -/
def specMatches (tag : Option String) (pub : Option Bool) (search : Option String)
    (p : Post) : Bool :=
  (match tag with
   | none => true
   | some t => (p.tags.map pyLower).contains (pyLower t)) &&
  (match pub with
   | none => true
   | some b => p.published == b) &&
  (match search with
   | none => true
   | some q => strContains (pyLower p.title) (pyLower q)
       || strContains (pyLower p.content) (pyLower q))

/-- C4 counterexample: with the supplied filter `tag = ""`, the post with
tag list `["Go", "go"]` is returned by the code even though the empty
string matches none of its tags, so membership in the result set is not
equivalent to satisfying every supplied filter. -/
theorem c4_counterexample :
    ¬ (post1 ∈ applyFilters [post1] (some "") none none ↔
        specMatches (some "") none none post1 = true) := by
  decide

/-- C4 (amended): filtering is conjunctive — a post is in the result set
iff it passes every supplied filter — provided the supplied tag filter is
not the empty string; an empty tag string (like an empty search string)
is falsy in Python and is treated as if the filter were absent. -/
theorem c4_filter_conjunctive (posts : List Post) (tag : Option String)
    (pub : Option Bool) (search : Option String) (p : Post)
    (htag : tag ≠ some "") :
    p ∈ applyFilters posts tag pub search ↔
      p ∈ posts ∧ specMatches tag pub search p = true := by
  have hq : ∀ hay : String, strContains hay "" = true := by
    intro hay
    cases hd : hay.data <;> simp [strContains, charsSub, charsStart, hd]
  have hpy0 : pyLower "" = "" := rfl
  rcases tag with _ | t
  · rcases pub with _ | b <;> rcases search with _ | q
    · simp [applyFilters, specMatches]
    · by_cases hq' : q = "" <;>
        simp [applyFilters, specMatches, hq', hq, hpy0, List.mem_filter] <;> tauto
    · simp [applyFilters, specMatches, List.mem_filter] <;> tauto
    · by_cases hq' : q = "" <;>
        simp [applyFilters, specMatches, hq', hq, hpy0, List.mem_filter] <;> tauto
  · have ht : t ≠ "" := fun hc => htag (by rw [hc])
    rcases pub with _ | b <;> rcases search with _ | q
    · simp [applyFilters, specMatches, ht, List.mem_filter]
    · by_cases hq' : q = "" <;>
        simp [applyFilters, specMatches, ht, hq', hq, hpy0, List.mem_filter] <;> tauto
    · simp [applyFilters, specMatches, ht, List.mem_filter] <;> tauto
    · by_cases hq' : q = "" <;>
        simp [applyFilters, specMatches, ht, hq', hq, hpy0, List.mem_filter] <;> tauto

theorem c4_filter_conjunctive_witness :
    (some "go" : Option String) ≠ some "" ∧
    (post1 ∈ applyFilters [post1] (some "go") (some false) (some "hello") ↔
      post1 ∈ [post1] ∧ specMatches (some "go") (some false) (some "hello") post1 = true) :=
  ⟨by decide,
   c4_filter_conjunctive [post1] (some "go") (some false) (some "hello") post1 (by decide)⟩

/-! Claim C5: `delete_post` cascade. -/

theorem keyval_unique {α : Type} {db : List (Nat × α)} (hnd : (db.map Prod.fst).Nodup)
    {k : Nat} {a b : α} (ha : (k, a) ∈ db) (hb : (k, b) ∈ db) : a = b := by
  induction db with
  | nil => cases ha
  | cons kv db ih =>
    rw [List.map_cons, List.nodup_cons] at hnd
    rcases List.mem_cons.mp ha with ha' | ha'
    · rcases List.mem_cons.mp hb with hb' | hb'
      · simpa using ha'.trans hb'.symm
      · exfalso
        apply hnd.1
        rw [← ha']
        exact List.mem_map.mpr ⟨(k, b), hb', rfl⟩
    · rcases List.mem_cons.mp hb with hb' | hb'
      · exfalso
        apply hnd.1
        rw [← hb']
        exact List.mem_map.mpr ⟨(k, a), ha', rfl⟩
      · exact ih hnd.2 ha' hb'

theorem getVal_filter_of_pred {α : Type} {db : List (Nat × α)} {k : Nat} {v : α}
    {pred : Nat × α → Bool} (h : getVal db k = some v) (hp : pred (k, v) = true) :
    getVal (db.filter pred) k = some v := by
  induction db with
  | nil => simp [getVal] at h
  | cons kv db ih =>
    rw [getVal] at h
    by_cases hk : kv.1 = k
    · rw [if_pos hk] at h
      simp only [Option.some_inj] at h
      have hkv : kv = (k, v) := by
        obtain ⟨k0, v0⟩ := kv
        simp only at hk h
        rw [hk, h]
      rw [hkv, List.filter_cons, if_pos (by rw [hp]), getVal, if_pos rfl]
    · rw [if_neg hk] at h
      rw [List.filter_cons]
      by_cases hpred : pred kv
      · rw [if_pos (by rw [hpred]), getVal, if_neg hk]
        exact ih h
      · rw [if_neg (by rw [show pred kv = false from by simpa using hpred]; simp)]
        exact ih h

theorem hasKey_filter_eq_false {α : Type} {db : List (Nat × α)} {k : Nat} {v : α}
    {pred : Nat × α → Bool} (hnd : (db.map Prod.fst).Nodup)
    (h : getVal db k = some v) (hp : pred (k, v) = false) :
    hasKey (db.filter pred) k = false := by
  rw [hasKey]
  by_contra hcon
  have hmem : k ∈ (db.filter pred).map Prod.fst := by
    have := Bool.of_not_eq_false hcon
    rwa [List.contains, List.elem_iff] at this
  obtain ⟨kv, hkv, hfst⟩ := List.mem_map.mp hmem
  obtain ⟨hkvdb, hkvpred⟩ := List.mem_filter.mp hkv
  have hkvk : kv = (k, kv.2) := by
    obtain ⟨k0, v0⟩ := kv
    simp only at hfst
    rw [hfst]
  have hv : kv.2 = v :=
    keyval_unique hnd (hkvk ▸ hkvdb) (getVal_some_mem h)
  rw [hkvk, hv, hp] at hkvpred
  cases hkvpred

/-- Effect of a successful `delete_post` on a store holding the post: the
call succeeds, the post is gone, exactly the comments with that
`post_id` are gone (all others keep their value), and afterwards both
`list_comments_for_post` on the deleted id and `delete_comment` on each
cascaded comment id fail with `NotFoundError`. -/
def C5Gone (s : Store) (pid : Nat) : Prop :=
  (delete_post s pid).1 = .ok () ∧
  getVal (delete_post s pid).2.posts_db pid = none ∧
  (delete_post s pid).2.comments_db
      = s.comments_db.filter (fun kv => !(kv.2.post_id == pid)) ∧
  (get_comments (delete_post s pid).2 pid).1 = .error .notFound ∧
  (∀ cid c, getVal s.comments_db cid = some c → c.post_id = pid →
      (delete_comment (delete_post s pid).2 cid).1 = .error .notFound) ∧
  (∀ cid c, getVal s.comments_db cid = some c → c.post_id ≠ pid →
      getVal (delete_post s pid).2.comments_db cid = some c) ∧
  (delete_post s pid).2.tags_db = s.tags_db ∧
  (delete_post s pid).2.post_counter = s.post_counter ∧
  (delete_post s pid).2.comment_counter = s.comment_counter

/-- C5: `delete_post` on an unknown id fails with `NotFoundError`; on an
existing id it removes the post and every comment whose `post_id` equals
it, after which `list_comments_for_post` on the deleted id and
`delete_comment` on each cascaded comment id fail with `NotFoundError`,
while comments of other posts are untouched. -/
theorem c5_delete_cascade (s : Store) (pid : Nat)
    (hnd : (s.comments_db.map Prod.fst).Nodup) :
    (getVal s.posts_db pid = none → delete_post s pid = (.error .notFound, s)) ∧
    (∀ p, getVal s.posts_db pid = some p → C5Gone s pid) := by
  constructor
  · intro h
    simp [delete_post, get_post_or_404, h]
  · intro p hp
    have hdel : delete_post s pid =
        (.ok (), { s with
          comments_db := s.comments_db.filter (fun kv => !(kv.2.post_id == pid)),
          posts_db := eraseKey s.posts_db pid }) := by
      simp [delete_post, get_post_or_404, hp]
    rw [C5Gone, hdel]
    refine ⟨rfl, getVal_eraseKey_same _ _, rfl, ?_, ?_, ?_, rfl, rfl, rfl⟩
    · simp [get_comments, get_post_or_404, getVal_eraseKey_same]
    · intro cid c hc hcpid
      have hkey : hasKey
          (s.comments_db.filter (fun kv => !(kv.2.post_id == pid))) cid = false :=
        hasKey_filter_eq_false hnd hc (by simp [hcpid])
      simp [delete_comment, hkey]
    · intro cid c hc hcpid
      exact getVal_filter_of_pred hc (by simpa using hcpid)

/-- A store with two posts and three comments; comments 1 and 3 belong to
post 1, comment 2 to post 2. -/
def commentedStore : Store :=
  (create_comment
    (create_comment
      (create_comment
        (create_post
          (create_post emptyStore "Hello" "first body" [] true "author1" 0).2
          "World" "second body" [] true "author1" 1).2
        1 "nice" "reader1" 2).2
      2 "meh" "reader2" 3).2
    1 "agreed" "reader3" 4).2

/-- The post stored under id 1 of `commentedStore`. -/
def helloPost : Post :=
  { id := 1, author := "author1", image_url := none, views := 0,
    created_at := 0, updated_at := 0, title := "Hello",
    content := "first body", tags := [], published := true }

theorem c5_delete_cascade_witness :
    ((commentedStore.comments_db.map Prod.fst).Nodup ∧
      getVal commentedStore.posts_db 1 = some helloPost) ∧
    C5Gone commentedStore 1 :=
  ⟨⟨by decide, by decide⟩,
   (c5_delete_cascade commentedStore 1 (by decide)).2 helloPost (by decide)⟩

/-! Claim C6: tag-registry invariant, preserved by every operation. -/

/-- One request against the store, any route of the API with its payload. -/
inductive Op where
  | opCreatePost (title content : String) (tags : List String) (published : Bool)
      (author : String) (now : Nat)
  | opUploadImage (pid : Nat) (content_type url : String) (now : Nat)
  | opGetPosts (page page_size : Nat) (tag : Option String) (published : Option Bool)
      (search : Option String)
  | opGetPost (pid : Nat)
  | opUpdatePost (pid : Nat) (u : PostUpdate) (now : Nat)
  | opDeletePost (pid : Nat)
  | opCreateComment (pid : Nat) (content author : String) (now : Nat)
  | opGetComments (pid : Nat)
  | opDeleteComment (cid : Nat)
  | opGetTags
  | opGetPostsByTag (tag_name : String)
  | opGetStats

/-- The store state after one request (responses discarded; the read-only
routes leave the state as they found it). -/
def step (s : Store) : Op → Store
  | .opCreatePost title content tags pub author now =>
      (create_post s title content tags pub author now).2
  | .opUploadImage pid ct url now => (upload_post_image s pid ct url now).2
  | .opGetPosts _ _ _ _ _ => s
  | .opGetPost pid => (get_post s pid).2
  | .opUpdatePost pid u now => (update_post s pid u now).2
  | .opDeletePost pid => (delete_post s pid).2
  | .opCreateComment pid content author now => (create_comment s pid content author now).2
  | .opGetComments pid => (get_comments s pid).2
  | .opDeleteComment cid => (delete_comment s cid).2
  | .opGetTags => s
  | .opGetPostsByTag _ => s
  | .opGetStats => s

/-- The registry invariant: every tag attached to any stored post has its
lowercase form in the tag registry. -/
def tagInvariant (s : Store) : Prop :=
  ∀ kv ∈ s.posts_db, ∀ t ∈ kv.2.tags, pyLower t ∈ s.tags_db

/-- C6: every operation preserves the registry invariant, and the
registry only ever grows — whatever was in it (hence listed by
`list_tags`) is still in it (and still listed) after any operation,
including deletion of every referencing post. -/
theorem c6_tag_registry (s : Store) (op : Op) (hinv : tagInvariant s) :
    tagInvariant (step s op) ∧ s.tags_db ⊆ (step s op).tags_db ∧
    (∀ t ∈ s.tags_db, t ∈ get_tags (step s op)) := by
  have main : tagInvariant (step s op) ∧ s.tags_db ⊆ (step s op).tags_db := by
    cases op with
    | opCreatePost title content tags pub author now =>
      by_cases h : pyStrip title = ""
      · have hstep : step s (.opCreatePost title content tags pub author now) = s := by
          simp [step, create_post, title_must_not_be_empty, h]
        rw [hstep]
        exact ⟨hinv, List.Subset.refl _⟩
      · have hstep : step s (.opCreatePost title content tags pub author now) =
            { s with post_counter := s.post_counter + 1,
                     tags_db := registerTags s.tags_db tags,
                     posts_db := s.posts_db ++ [(s.post_counter + 1,
                       { id := s.post_counter + 1, author := author, image_url := none,
                         views := 0, created_at := now, updated_at := now,
                         title := title, content := content, tags := tags,
                         published := pub })] } := by
          simp [step, create_post, title_must_not_be_empty, h]
        rw [hstep]
        refine ⟨?_, subset_registerTags tags s.tags_db⟩
        intro kv hkv t ht
        rcases List.mem_append.mp hkv with hold | hnew
        · exact subset_registerTags tags s.tags_db (hinv kv hold t ht)
        · have hkv2 := List.mem_singleton.mp hnew
          rw [hkv2] at ht
          exact mem_registerTags tags ht s.tags_db
    | opUploadImage pid ct url now =>
      cases hg : getVal s.posts_db pid with
      | none =>
        have hstep : step s (.opUploadImage pid ct url now) = s := by
          simp [step, upload_post_image, get_post_or_404, hg]
        rw [hstep]
        exact ⟨hinv, List.Subset.refl _⟩
      | some p =>
        by_cases hct : pyStarts ct "image/"
        · have hstep : step s (.opUploadImage pid ct url now) =
              { s with posts_db := (setVal s.posts_db pid
                  { p with image_url := some url, updated_at := now }) } := by
            simp [step, upload_post_image, get_post_or_404, hg, hct]
          rw [hstep]
          refine ⟨?_, List.Subset.refl _⟩
          intro kv hkv t ht
          rcases mem_setVal hkv with hnew | hold
          · rw [hnew] at ht
            exact hinv (pid, p) (getVal_some_mem hg) t ht
          · exact hinv kv hold t ht
        · have hstep : step s (.opUploadImage pid ct url now) = s := by
            simp [step, upload_post_image, get_post_or_404, hg, hct]
          rw [hstep]
          exact ⟨hinv, List.Subset.refl _⟩
    | opGetPosts page page_size tag pub search => exact ⟨hinv, List.Subset.refl _⟩
    | opGetPost pid =>
      cases hg : getVal s.posts_db pid with
      | none =>
        have hstep : step s (.opGetPost pid) = s := by
          simp [step, get_post, get_post_or_404, hg]
        rw [hstep]
        exact ⟨hinv, List.Subset.refl _⟩
      | some p =>
        have hstep : step s (.opGetPost pid) = increment_views s pid := by
          simp [step, get_post, get_post_or_404, hg]
        rw [hstep]
        refine ⟨?_, List.Subset.refl _⟩
        intro kv hkv t ht
        obtain ⟨kv0, hkv0, htags⟩ := mem_bumpViews hkv
        exact hinv kv0 hkv0 t (htags ▸ ht)
    | opUpdatePost pid u now =>
      cases hg : getVal s.posts_db pid with
      | none =>
        have hstep : step s (.opUpdatePost pid u now) = s := by
          simp [step, update_post, get_post_or_404, hg]
        rw [hstep]
        exact ⟨hinv, List.Subset.refl _⟩
      | some p =>
        cases hu : u.tags with
        | some ts =>
          have hstep : step s (.opUpdatePost pid u now) =
              { s with tags_db := registerTags s.tags_db ts,
                       posts_db := (setVal s.posts_db pid
                         { p with title := u.title.getD p.title,
                                  content := u.content.getD p.content,
                                  tags := ts,
                                  published := u.published.getD p.published,
                                  updated_at := now }) } := by
            simp [step, update_post, get_post_or_404, hg, hu]
          rw [hstep]
          refine ⟨?_, subset_registerTags ts s.tags_db⟩
          intro kv hkv t ht
          rcases mem_setVal hkv with hnew | hold
          · rw [hnew] at ht
            exact mem_registerTags ts ht s.tags_db
          · exact subset_registerTags ts s.tags_db (hinv kv hold t ht)
        | none =>
          have hstep : step s (.opUpdatePost pid u now) =
              { s with posts_db := (setVal s.posts_db pid
                  { p with title := u.title.getD p.title,
                           content := u.content.getD p.content,
                           tags := p.tags,
                           published := u.published.getD p.published,
                           updated_at := now }) } := by
            simp [step, update_post, get_post_or_404, hg, hu]
          rw [hstep]
          refine ⟨?_, List.Subset.refl _⟩
          intro kv hkv t ht
          rcases mem_setVal hkv with hnew | hold
          · rw [hnew] at ht
            exact hinv (pid, p) (getVal_some_mem hg) t ht
          · exact hinv kv hold t ht
    | opDeletePost pid =>
      cases hg : getVal s.posts_db pid with
      | none =>
        have hstep : step s (.opDeletePost pid) = s := by
          simp [step, delete_post, get_post_or_404, hg]
        rw [hstep]
        exact ⟨hinv, List.Subset.refl _⟩
      | some p =>
        have hstep : step s (.opDeletePost pid) =
            { s with
                comments_db := s.comments_db.filter (fun kv => !(kv.2.post_id == pid)),
                posts_db := eraseKey s.posts_db pid } := by
          simp [step, delete_post, get_post_or_404, hg]
        rw [hstep]
        refine ⟨?_, List.Subset.refl _⟩
        intro kv hkv t ht
        exact hinv kv (mem_eraseKey hkv) t ht
    | opCreateComment pid content author now =>
      cases hg : getVal s.posts_db pid with
      | none =>
        have hstep : step s (.opCreateComment pid content author now) = s := by
          simp [step, create_comment, get_post_or_404, hg]
        rw [hstep]
        exact ⟨hinv, List.Subset.refl _⟩
      | some p =>
        have hstep : step s (.opCreateComment pid content author now) =
            { s with comment_counter := s.comment_counter + 1,
                     comments_db := s.comments_db ++ [(s.comment_counter + 1,
                       { id := s.comment_counter + 1, post_id := pid,
                         created_at := now, content := content, author := author })] } := by
          simp [step, create_comment, get_post_or_404, hg]
        rw [hstep]
        exact ⟨hinv, List.Subset.refl _⟩
    | opGetComments pid =>
      have hstep : step s (.opGetComments pid) = s := by
        cases hg : getVal s.posts_db pid <;>
          simp [step, get_comments, get_post_or_404, hg]
      rw [hstep]
      exact ⟨hinv, List.Subset.refl _⟩
    | opDeleteComment cid =>
      by_cases h : hasKey s.comments_db cid
      · have hstep : step s (.opDeleteComment cid) =
            { s with comments_db := eraseKey s.comments_db cid } := by
          simp [step, delete_comment, h]
        rw [hstep]
        exact ⟨hinv, List.Subset.refl _⟩
      · have hstep : step s (.opDeleteComment cid) = s := by
          simp [step, delete_comment, h]
        rw [hstep]
        exact ⟨hinv, List.Subset.refl _⟩
    | opGetTags => exact ⟨hinv, List.Subset.refl _⟩
    | opGetPostsByTag tag_name => exact ⟨hinv, List.Subset.refl _⟩
    | opGetStats => exact ⟨hinv, List.Subset.refl _⟩
  exact ⟨main.1, main.2, fun t ht => (mem_sortAsc _ t).mpr (main.2 ht)⟩

theorem c6_tag_registry_witness :
    tagInvariant threePostStore ∧
    (tagInvariant (step threePostStore (.opDeletePost 1)) ∧
      threePostStore.tags_db ⊆ (step threePostStore (.opDeletePost 1)).tags_db ∧
      (∀ t ∈ threePostStore.tags_db, t ∈ get_tags (step threePostStore (.opDeletePost 1)))) :=
  ⟨by unfold tagInvariant; decide,
   c6_tag_registry threePostStore (.opDeletePost 1) (by unfold tagInvariant; decide)⟩

/-! Claim C7: `get_stats` aggregates. -/

/-- First-match lookup `tag_counts.get(t, 0)` in the counts dict. -/
def getCount : List (String × Nat) → String → Nat
  | [], _ => 0
  | (k, c) :: rest, t => if k = t then c else getCount rest t

theorem getCount_bump (acc : List (String × Nat)) (u t : String) :
    getCount (bump acc u) t = getCount acc t + (if u = t then 1 else 0) := by
  induction acc with
  | nil => by_cases h : u = t <;> simp [bump, getCount, h]
  | cons kc rest ih =>
    obtain ⟨k, c⟩ := kc
    by_cases hku : k = u
    · rw [bump, if_pos hku]
      by_cases hkt : k = t
      · rw [getCount, if_pos hkt, getCount, if_pos hkt,
          if_pos (by rw [← hku]; exact hkt)]
      · rw [getCount, if_neg hkt, getCount, if_neg hkt,
          if_neg (by rw [← hku]; exact hkt)]
        omega
    · rw [bump, if_neg hku]
      by_cases hkt : k = t
      · rw [getCount, if_pos hkt, getCount, if_pos hkt,
          if_neg (by rw [← hkt]; exact fun hc => hku hc.symm)]
        omega
      · rw [getCount, if_neg hkt, getCount, if_neg hkt, ih]

theorem mem_keys_bump (acc : List (String × Nat)) (u t : String) :
    t ∈ (bump acc u).map Prod.fst ↔ t ∈ acc.map Prod.fst ∨ t = u := by
  induction acc with
  | nil => simp [bump, eq_comm]
  | cons kc rest ih =>
    obtain ⟨k, c⟩ := kc
    by_cases hku : k = u
    · rw [bump, if_pos hku]
      simp only [List.map_cons, List.mem_cons]
      constructor
      · intro h
        rcases h with h | h
        · exact Or.inl (Or.inl h)
        · exact Or.inl (Or.inr h)
      · intro h
        rcases h with (h | h) | h
        · exact Or.inl h
        · exact Or.inr h
        · exact Or.inl (by rw [h, ← hku])
    · rw [bump, if_neg hku]
      simp only [List.map_cons, List.mem_cons, ih]
      tauto

theorem nodup_keys_bump (acc : List (String × Nat)) (u : String)
    (h : (acc.map Prod.fst).Nodup) : ((bump acc u).map Prod.fst).Nodup := by
  induction acc with
  | nil => simp [bump]
  | cons kc rest ih =>
    obtain ⟨k, c⟩ := kc
    rw [List.map_cons, List.nodup_cons] at h
    by_cases hku : k = u
    · rw [bump, if_pos hku, List.map_cons, List.nodup_cons]
      exact h
    · rw [bump, if_neg hku, List.map_cons, List.nodup_cons]
      refine ⟨?_, ih h.2⟩
      intro hc
      rcases (mem_keys_bump rest u k).mp hc with hc | hc
      · exact h.1 hc
      · exact hku hc

theorem mem_getCount {acc : List (String × Nat)} (hnd : (acc.map Prod.fst).Nodup)
    {t : String} {c : Nat} (h : (t, c) ∈ acc) : getCount acc t = c := by
  induction acc with
  | nil => cases h
  | cons kc rest ih =>
    obtain ⟨k, c0⟩ := kc
    rw [List.map_cons, List.nodup_cons] at hnd
    rcases List.mem_cons.mp h with h' | h'
    · have hk : k = t := by
        have := congrArg Prod.fst h'
        simpa using this.symm
      have hc : c0 = c := by
        have := congrArg Prod.snd h'
        simpa using this.symm
      rw [getCount, if_pos hk, hc]
    · have hk : k ≠ t := by
        intro hc
        apply hnd.1
        rw [hc]
        exact List.mem_map.mpr ⟨(t, c), h', rfl⟩
      rw [getCount, if_neg hk]
      exact ih hnd.2 h'

theorem getCount_foldl (l : List String) (t : String) :
    ∀ acc, getCount (l.foldl bump acc) t = getCount acc t + l.count t := by
  induction l with
  | nil => intro acc; simp
  | cons u rest ih =>
    intro acc
    rw [List.foldl_cons, ih (bump acc u), getCount_bump]
    rw [List.count_cons]
    by_cases h : u = t <;> simp [h] <;> omega

theorem nodup_keys_foldl (l : List String) :
    ∀ acc, (acc.map Prod.fst).Nodup → ((l.foldl bump acc).map Prod.fst).Nodup := by
  induction l with
  | nil => intro acc h; exact h
  | cons u rest ih =>
    intro acc h
    rw [List.foldl_cons]
    exact ih (bump acc u) (nodup_keys_bump acc u h)

theorem mem_keys_foldl (l : List String) (t : String) :
    ∀ acc, t ∈ (l.foldl bump acc).map Prod.fst → t ∈ acc.map Prod.fst ∨ t ∈ l := by
  induction l with
  | nil => intro acc h; exact Or.inl h
  | cons u rest ih =>
    intro acc h
    rw [List.foldl_cons] at h
    rcases ih (bump acc u) h with h' | h'
    · rcases (mem_keys_bump acc u t).mp h' with h'' | h''
      · exact Or.inl h''
      · exact Or.inr (by rw [h'']; exact List.mem_cons_self _ _)
    · exact Or.inr (List.mem_cons_of_mem _ h')

theorem buildCounts_mem {l : List String} {t : String} {c : Nat}
    (h : (t, c) ∈ buildCounts l) : c = l.count t ∧ 0 < c := by
  have hnd : ((buildCounts l).map Prod.fst).Nodup :=
    nodup_keys_foldl l [] (by simp)
  have h1 : getCount (buildCounts l) t = c := mem_getCount hnd h
  have h2 : getCount (buildCounts l) t = l.count t := by
    rw [buildCounts] at h1 ⊢
    rw [getCount_foldl l t []]
    simp [getCount]
  have hmem : t ∈ l := by
    have hk : t ∈ (buildCounts l).map Prod.fst :=
      List.mem_map.mpr ⟨(t, c), h, rfl⟩
    rcases mem_keys_foldl l t [] hk with h' | h'
    · cases h'
    · exact h'
  refine ⟨by rw [← h1, h2], ?_⟩
  rw [← h1, h2]
  exact List.count_pos_iff.mpr hmem

/-- The claimed shape of a `get_stats` result: the published/draft counts
partition the posts, total views and total comments are the store-wide
sums, and `popular_tags` has at most five entries, sorted by descending
frequency, each entry carrying the true occurrence count (over tags
attached to posts, not registry entries, hence positive). -/
def C7Prop (s : Store) : Prop :=
  (get_stats s).published_posts + (get_stats s).draft_posts = (get_stats s).total_posts ∧
  (get_stats s).total_views = ((s.posts_db.map Prod.snd).map Post.views).sum ∧
  (get_stats s).total_comments = s.comments_db.length ∧
  (get_stats s).popular_tags.length ≤ 5 ∧
  (get_stats s).popular_tags.Pairwise (fun a b => b.2 ≤ a.2) ∧
  (∀ tc ∈ (get_stats s).popular_tags,
    tc.2 = (((s.posts_db.map Prod.snd).map Post.tags).flatten).count tc.1 ∧ 0 < tc.2)

/-- C7: `compute_stats` returns a record with
`published_posts + draft_posts = total_posts`, `total_views` the sum of
all view counters, `total_comments` the number of stored comments, and
`popular_tags` at most five entries ordered by descending frequency
(deterministically — it is a pure function of the store), counting only
tag occurrences actually attached to posts. -/
theorem c7_stats (s : Store) : C7Prop s := by
  refine ⟨?_, rfl, rfl, ?_, ?_, ?_⟩
  · exact length_filter_partition (fun p => p.published) (s.posts_db.map Prod.snd)
  · exact List.length_take_le _ _
  · exact List.Pairwise.sublist (List.take_sublist _ _) (sortDesc_pairwise _ _)
  · intro tc htc
    have h1 : tc ∈ sortDesc (fun tc => tc.2)
        (buildCounts (((s.posts_db.map Prod.snd).map Post.tags).flatten)) :=
      (List.take_sublist _ _).subset htc
    have h2 : tc ∈ buildCounts (((s.posts_db.map Prod.snd).map Post.tags).flatten) :=
      (sortDesc_perm _ _).subset h1
    obtain ⟨t, c⟩ := tc
    exact buildCounts_mem h2

theorem c7_stats_witness : C7Prop threePostStore :=
  c7_stats threePostStore

/-! Claim C8: partial-update semantics of `update_post`. -/

/-- Effect of a successful `update_post` on a store holding `p` at `pid`:
each supplied field overwrites, each omitted field keeps its prior value,
`updated_at` is refreshed unconditionally, the untouched server-side
fields survive, and no other post moves. -/
def C8Updated (s : Store) (pid : Nat) (u : PostUpdate) (now : Nat) (p : Post) : Prop :=
  ∃ p', (update_post s pid u now).1 = .ok p' ∧
    getVal (update_post s pid u now).2.posts_db pid = some p' ∧
    p'.title = u.title.getD p.title ∧
    p'.content = u.content.getD p.content ∧
    p'.tags = u.tags.getD p.tags ∧
    p'.published = u.published.getD p.published ∧
    p'.updated_at = now ∧
    p'.id = p.id ∧ p'.author = p.author ∧ p'.views = p.views ∧
    p'.image_url = p.image_url ∧ p'.created_at = p.created_at ∧
    (∀ k, k ≠ pid → getVal (update_post s pid u now).2.posts_db k = getVal s.posts_db k)

/-- C8: `update_post` on an existing post overwrites exactly the supplied
fields (an omitted field keeps its prior value — omission is distinct
from supplying a zero value), refreshes `updated_at` on every successful
call, and leaves identity, author, views, image and creation time as well
as every other post untouched. -/
theorem c8_partial_update (s : Store) (pid now : Nat) (u : PostUpdate) (p : Post)
    (hp : getVal s.posts_db pid = some p) : C8Updated s pid u now p := by
  refine ⟨({ p with
      title := u.title.getD p.title,
      content := u.content.getD p.content,
      tags := u.tags.getD p.tags,
      published := u.published.getD p.published,
      updated_at := now }),
    ?_, ?_, rfl, rfl, rfl, rfl, rfl, rfl, rfl, rfl, rfl, rfl, ?_⟩
  · simp [update_post, get_post_or_404, hp]
  · simp [update_post, get_post_or_404, hp, getVal_setVal_same]
  · intro k hk
    simp [update_post, get_post_or_404, hp, getVal_setVal_ne _ _ _ _ hk]

theorem c8_partial_update_witness :
    C8Updated threePostStore 1 { published := some true } 7 post1 :=
  c8_partial_update threePostStore 1 7 { published := some true } post1 (by decide)

/-! Claim C9: the non-empty-title invariant is NOT maintained by
`update_post` — the `PostUpdate` model carries no title validator, so a
whitespace-only title is accepted and stored.  The validator on
`PostBase` and the spec's data model ("title: non-empty string") make the
intent clear; the missing validation on the update path is a slip in the
code. -/

/-- C9: evaluating the code at the failing input — updating post 1 with
the whitespace-only title `"   "` succeeds and stores that title, even
though it strips to the empty string, violating the claimed store-wide
invariant. -/
theorem c9_blank_title_update :
    (update_post threePostStore 1 { title := some "   " } 9).1.toOption.map Post.title
        = some "   " ∧
    (getVal (update_post threePostStore 1 { title := some "   " } 9).2.posts_db 1).map
        Post.title = some "   " ∧
    pyStrip "   " = "" := by
  decide

/-! Claim C10: internal bookkeeping reads. -/

/-- C10 counterexample: `update_post` performs its lookup through
`get_post_or_404`, yet the view counter of the looked-up post stays 0 —
it is not incremented the way a user-facing `get_post` would. -/
theorem c10_counterexample :
    (getVal (update_post threePostStore 1 { published := some false } 9).2.posts_db 1).map
        Post.views = some 0 ∧
    (some 0 : Option Nat) ≠ some 1 := by
  decide

/-- C10 (amended): the lookups `get_post_or_404` performs on behalf of
other operations do NOT increment the view counter — `increment_views`
is invoked only by the user-facing `get_post` route.  Every view counter
is unchanged by `update_post`, `create_comment`, `get_comments` and
`upload_post_image`, and by `delete_post` for the surviving posts. -/
theorem c10_internal_reads (s : Store) (pid k : Nat) (u : PostUpdate)
    (ct url content author : String) (now : Nat) :
    ((getVal (update_post s pid u now).2.posts_db k).map Post.views
        = (getVal s.posts_db k).map Post.views) ∧
    ((getVal (create_comment s pid content author now).2.posts_db k).map Post.views
        = (getVal s.posts_db k).map Post.views) ∧
    ((getVal (get_comments s pid).2.posts_db k).map Post.views
        = (getVal s.posts_db k).map Post.views) ∧
    ((getVal (upload_post_image s pid ct url now).2.posts_db k).map Post.views
        = (getVal s.posts_db k).map Post.views) ∧
    (∀ p, getVal s.posts_db pid = some p → k ≠ pid →
      (getVal (delete_post s pid).2.posts_db k).map Post.views
        = (getVal s.posts_db k).map Post.views) := by
  refine ⟨?_, ?_, ?_, ?_, ?_⟩
  · cases hg : getVal s.posts_db pid with
    | none => simp [update_post, get_post_or_404, hg]
    | some p =>
      by_cases hk : k = pid
      · subst hk
        simp [update_post, get_post_or_404, hg, getVal_setVal_same]
      · simp [update_post, get_post_or_404, hg, getVal_setVal_ne _ _ _ _ hk]
  · cases hg : getVal s.posts_db pid with
    | none => simp [create_comment, get_post_or_404, hg]
    | some p => simp [create_comment, get_post_or_404, hg]
  · cases hg : getVal s.posts_db pid with
    | none => simp [get_comments, get_post_or_404, hg]
    | some p => simp [get_comments, get_post_or_404, hg]
  · cases hg : getVal s.posts_db pid with
    | none => simp [upload_post_image, get_post_or_404, hg]
    | some p =>
      by_cases hct : pyStarts ct "image/"
      · by_cases hk : k = pid
        · subst hk
          simp [upload_post_image, get_post_or_404, hg, hct, getVal_setVal_same]
        · simp [upload_post_image, get_post_or_404, hg, hct,
            getVal_setVal_ne _ _ _ _ hk]
      · simp [upload_post_image, get_post_or_404, hg, hct]
  · intro p hp hk
    simp [delete_post, get_post_or_404, hp, getVal_eraseKey_ne _ _ _ hk]

theorem c10_internal_reads_witness :
    (getVal (delete_post threePostStore 1).2.posts_db 2).map Post.views
      = (getVal threePostStore.posts_db 2).map Post.views :=
  (c10_internal_reads threePostStore 1 2 {} "image/png" "u" "c" "a" 9).2.2.2.2
    post1 (by decide) (by decide)

end BlogApi
